import Mathlib

/-!
Verification of the text-normalization, chunking, fingerprinting and
resilient-call core of the zcash-forum-digest repository.

Strings are embedded as `List Char`, matching the Rust code's `chars()`
iteration (one element per Unicode scalar value); byte payloads for the
hash are `List Nat` (each element a byte value).  Each definition mirrors
the function of the same name in the Rust sources; the file and line of
the source is given in the doc comment.
-/

/-! ## Whitespace normalizer (src/src/lib.rs:99-114) -/

/-- The Unicode White_Space property, as used by Rust's `char::is_whitespace`
and `str::trim`. -/
def isWs (c : Char) : Bool :=
  let n := c.toNat
  (9 ≤ n && n ≤ 13) || n == 32 || n == 133 || n == 160 || n == 5760 ||
    (8192 ≤ n && n ≤ 8202) || n == 8232 || n == 8233 || n == 8239 ||
    n == 8287 || n == 12288

/-- The loop of `squeeze_ws` (src/src/lib.rs:99-114): the `Bool` argument is
the `prev_space` flag. -/
def squeezeWsGo : List Char → Bool → List Char
  | [], _ => []
  | c :: cs, prev =>
    if isWs c then
      if !prev then ' ' :: squeezeWsGo cs true else squeezeWsGo cs true
    else c :: squeezeWsGo cs false

/-- `squeeze_ws` (src/src/lib.rs:99-114): collapse every maximal whitespace
run to a single space. -/
def squeeze_ws (s : List Char) : List Char := squeezeWsGo s false

/-- Rust `str::trim`: drop leading and trailing White_Space characters. -/
def trimList (s : List Char) : List Char :=
  ((s.dropWhile isWs).reverse.dropWhile isWs).reverse

/-- Rust `str::trim_end`: drop trailing White_Space characters. -/
def rtrimList (s : List Char) : List Char :=
  (s.reverse.dropWhile isWs).reverse

/-! ## Character-budgeted chunker (src/src/lib.rs:116-143) -/

/-- `take_prefix_chars` (src/src/lib.rs:116-122): keep at most `max_chars`
characters of `s`, whole characters only. -/
def take_prefix_chars (s : List Char) (max_chars : Nat) : List Char :=
  if s.length ≤ max_chars then s else s.take max_chars

/-- The loop of `make_chunk` (src/src/lib.rs:124-143): `cur_chars` is the
running character count of the chunk built so far; the returned list is the
remainder of the chunk appended from this point on. -/
def makeChunkGo (max_chars : Nat) : List (List Char) → Nat → List Char
  | [], _ => []
  | l :: ls, cur_chars =>
    if cur_chars + l.length + 1 > max_chars then
      if max_chars - cur_chars > 0 then take_prefix_chars l (max_chars - cur_chars)
      else []
    else if l.isEmpty then makeChunkGo max_chars ls cur_chars
    else l ++ '\n' :: makeChunkGo max_chars ls (cur_chars + l.length + 1)

/-- `make_chunk` (src/src/lib.rs:124-143). -/
def make_chunk (lines : List (List Char)) (max_chars : Nat) : List Char :=
  makeChunkGo max_chars lines 0

/-- The concatenation of the non-empty lines, each followed by a newline:
the reference string of which the chunk is claimed to be a prefix. -/
def joined_lines : List (List Char) → List Char
  | [] => []
  | l :: ls => if l.isEmpty then joined_lines ls else l ++ '\n' :: joined_lines ls

/-! ## Incremental guard (src/src/lib.rs:208-227) -/

/-- The pure decision at the heart of `posts_changed_since_last_llm`
(src/src/lib.rs:222-226).  The two SQL reads are abstracted into the two
optional timestamp arguments (`MAX(created_at)` over the topic's posts, and
the summary row's `updated_at`); timestamps are modelled as `Int`. -/
def posts_changed_since_last_llm (max_created last_llm : Option Int) : Bool :=
  match max_created, last_llm with
  | none, _ => false
  | some _, none => true
  | some mc, some ts => decide (ts < mc)

/-! ## Theorems: whitespace normalizer -/

theorem squeezeWsGo_idem (s : List Char) :
    ∀ b, squeezeWsGo (squeezeWsGo s b) b = squeezeWsGo s b := by
  induction s with
  | nil => intro b; simp [squeezeWsGo]
  | cons c cs ih =>
    intro b
    by_cases hc : isWs c = true
    · cases b with
      | true => simp [squeezeWsGo, hc, ih]
      | false =>
        simp only [squeezeWsGo, hc, if_true, Bool.not_false, if_pos]
        have hsp : isWs ' ' = true := by decide
        simp [squeezeWsGo, hsp, ih]
    · have hcf : isWs c = false := by simpa using hc
      simp [squeezeWsGo, hcf, ih]

/-- Claim C10: `squeeze_ws` is idempotent, so re-normalizing
already-normalized text never changes it. -/
theorem squeeze_ws_idempotent (s : List Char) :
    squeeze_ws (squeeze_ws s) = squeeze_ws s :=
  squeezeWsGo_idem s false

/-! ## Theorems: chunker -/

theorem take_prefix_chars_length_le (s : List Char) (m : Nat) :
    (take_prefix_chars s m).length ≤ m := by
  unfold take_prefix_chars
  split
  · omega
  · simp [List.length_take]

theorem take_prefix_chars_subset (s : List Char) (m : Nat) :
    take_prefix_chars s m ⊆ s := by
  unfold take_prefix_chars
  split
  · exact fun a h => h
  · exact List.take_subset m s

theorem makeChunkGo_length (max_chars : Nat) :
    ∀ (ls : List (List Char)) (cur : Nat), cur ≤ max_chars →
      cur + (makeChunkGo max_chars ls cur).length ≤ max_chars := by
  intro ls
  induction ls with
  | nil => intro cur h; simpa [makeChunkGo] using h
  | cons l ls ih =>
    intro cur hcur
    simp only [makeChunkGo]
    by_cases hb : cur + l.length + 1 > max_chars
    · rw [if_pos hb]
      by_cases hr : max_chars - cur > 0
      · rw [if_pos hr]
        have := take_prefix_chars_length_le l (max_chars - cur)
        omega
      · rw [if_neg hr]
        simpa using hcur
    · rw [if_neg hb]
      by_cases he : l.isEmpty = true
      · rw [if_pos he]
        exact ih cur hcur
      · rw [if_neg he]
        have h1 : cur + l.length + 1 ≤ max_chars := by omega
        have := ih (cur + l.length + 1) h1
        simp only [List.length_append, List.length_cons]
        omega

theorem makeChunkGo_mem (max_chars : Nat) :
    ∀ (ls : List (List Char)) (cur : Nat) (c : Char),
      c ∈ makeChunkGo max_chars ls cur →
        c = '\n' ∨ ∃ l, l ∈ ls ∧ c ∈ l := by
  intro ls
  induction ls with
  | nil => intro cur c h; simp [makeChunkGo] at h
  | cons l ls ih =>
    intro cur c h
    simp only [makeChunkGo] at h
    by_cases hb : cur + l.length + 1 > max_chars
    · rw [if_pos hb] at h
      by_cases hr : max_chars - cur > 0
      · rw [if_pos hr] at h
        exact Or.inr ⟨l, List.mem_cons_self l ls, take_prefix_chars_subset l _ h⟩
      · rw [if_neg hr] at h
        simp at h
    · rw [if_neg hb] at h
      by_cases he : l.isEmpty = true
      · rw [if_pos he] at h
        rcases ih cur c h with h1 | ⟨l2, hl2, hc2⟩
        · exact Or.inl h1
        · exact Or.inr ⟨l2, List.mem_cons_of_mem l hl2, hc2⟩
      · rw [if_neg he] at h
        rcases List.mem_append.mp h with h1 | h1
        · exact Or.inr ⟨l, List.mem_cons_self l ls, h1⟩
        · rcases List.mem_cons.mp h1 with h2 | h2
          · exact Or.inl h2
          · rcases ih _ c h2 with h3 | ⟨l2, hl2, hc2⟩
            · exact Or.inl h3
            · exact Or.inr ⟨l2, List.mem_cons_of_mem l hl2, hc2⟩

/-- Claim C1: the chunk never exceeds the character budget, and every
character of the chunk is a whole character of some input line or the
inserted newline separator — no character is ever split. -/
theorem make_chunk_char_budget (lines : List (List Char)) (max_chars : Nat) :
    (make_chunk lines max_chars).length ≤ max_chars ∧
    ∀ c, c ∈ make_chunk lines max_chars →
      c = '\n' ∨ ∃ l, l ∈ lines ∧ c ∈ l := by
  constructor
  · have := makeChunkGo_length max_chars lines 0 (Nat.zero_le _)
    simpa [make_chunk] using this
  · intro c hc
    exact makeChunkGo_mem max_chars lines 0 c hc

theorem make_chunk_char_budget_witness :
    (make_chunk [['a', 'b'], ['c']] 3).length ≤ 3 ∧
    ('a' = '\n' ∨ ∃ l, l ∈ [['a', 'b'], ['c']] ∧ 'a' ∈ l) :=
  ⟨(make_chunk_char_budget [['a', 'b'], ['c']] 3).1,
   (make_chunk_char_budget [['a', 'b'], ['c']] 3).2 'a' (by decide)⟩

theorem take_prefix_chars_is_initial (s : List Char) (m : Nat) :
    ∃ t, take_prefix_chars s m ++ t = s := by
  unfold take_prefix_chars
  split
  · exact ⟨[], List.append_nil s⟩
  · exact ⟨s.drop m, List.take_append_drop m s⟩

theorem makeChunkGo_initial (max_chars : Nat) :
    ∀ (ls : List (List Char)) (cur : Nat),
      ∃ t, makeChunkGo max_chars ls cur ++ t = joined_lines ls := by
  intro ls
  induction ls with
  | nil => intro cur; exact ⟨[], by simp [makeChunkGo, joined_lines]⟩
  | cons l ls ih =>
    intro cur
    simp only [makeChunkGo]
    by_cases hb : cur + l.length + 1 > max_chars
    · rw [if_pos hb]
      by_cases hr : max_chars - cur > 0
      · rw [if_pos hr]
        have hl : ¬(l.isEmpty = true) := by
          rcases l with _ | ⟨c, cs⟩
          · exfalso; simp at hb; omega
          · simp
        rcases take_prefix_chars_is_initial l (max_chars - cur) with ⟨t0, ht0⟩
        refine ⟨t0 ++ '\n' :: joined_lines ls, ?_⟩
        simp only [joined_lines]
        rw [if_neg hl, ← List.append_assoc, ht0]
      · rw [if_neg hr]
        exact ⟨joined_lines (l :: ls), by simp⟩
    · rw [if_neg hb]
      by_cases he : l.isEmpty = true
      · rw [if_pos he]
        simp only [joined_lines]
        rw [if_pos he]
        exact ih cur
      · rw [if_neg he]
        rcases ih (cur + l.length + 1) with ⟨t, ht⟩
        refine ⟨t, ?_⟩
        simp only [joined_lines]
        rw [if_neg he, List.append_assoc, List.cons_append, ht]

/-- Claim C7: the chunk is an initial segment of the concatenation of the
non-empty lines (in order, each followed by a newline), and once a line
overflows the budget every later line is ignored entirely. -/
theorem make_chunk_initial_of_joined (lines : List (List Char)) (max_chars : Nat) :
    (∃ t, make_chunk lines max_chars ++ t = joined_lines lines) ∧
    (∀ cur l ls1 ls2, cur + l.length + 1 > max_chars →
      makeChunkGo max_chars (l :: ls1) cur = makeChunkGo max_chars (l :: ls2) cur) := by
  constructor
  · exact makeChunkGo_initial max_chars lines 0
  · intro cur l ls1 ls2 h
    unfold makeChunkGo
    rw [if_pos h, if_pos h]

theorem make_chunk_initial_of_joined_witness :
    (∃ t, make_chunk [['a'], ['b']] 2 ++ t = joined_lines [['a'], ['b']]) ∧
    makeChunkGo 2 [['b', 'c'], ['d']] 2 = makeChunkGo 2 [['b', 'c'], ['x']] 2 :=
  ⟨(make_chunk_initial_of_joined [['a'], ['b']] 2).1,
   (make_chunk_initial_of_joined [['a'], ['b']] 2).2 2 ['b', 'c'] [['d']] [['x']]
     (by decide)⟩

/-! ## Theorems: incremental guard -/

/-- Claim C3: the incremental guard's truth table — no posts at all means no
reprocessing; posts but no previous summary means reprocess; otherwise
reprocess exactly when the newest post is strictly newer than the summary,
so equal timestamps yield false. -/
theorem posts_changed_truth_table :
    (∀ last_llm, posts_changed_since_last_llm none last_llm = false) ∧
    (∀ mc, posts_changed_since_last_llm (some mc) none = true) ∧
    (∀ mc ts : Int, ts < mc →
      posts_changed_since_last_llm (some mc) (some ts) = true) ∧
    (∀ mc ts : Int, mc ≤ ts →
      posts_changed_since_last_llm (some mc) (some ts) = false) ∧
    (∀ t : Int, posts_changed_since_last_llm (some t) (some t) = false) := by
  refine ⟨fun _ => rfl, fun _ => rfl, ?_, ?_, ?_⟩
  · intro mc ts h
    simp [posts_changed_since_last_llm, h]
  · intro mc ts h
    simp [posts_changed_since_last_llm]
    omega
  · intro t
    simp [posts_changed_since_last_llm]

theorem posts_changed_truth_table_witness :
    posts_changed_since_last_llm none (some 7) = false ∧
    posts_changed_since_last_llm (some 7) none = true ∧
    posts_changed_since_last_llm (some 7) (some 3) = true ∧
    posts_changed_since_last_llm (some 3) (some 7) = false ∧
    posts_changed_since_last_llm (some 7) (some 7) = false :=
  ⟨posts_changed_truth_table.1 (some 7),
   posts_changed_truth_table.2.1 7,
   posts_changed_truth_table.2.2.1 7 3 (by decide),
   posts_changed_truth_table.2.2.2.1 3 7 (by decide),
   posts_changed_truth_table.2.2.2.2 7⟩

/-! ## HTML text extractor (src/src/lib.rs:19-97) -/

/-- A parsed DOM node, mirroring `markup5ever_rcdom`: text nodes, element
nodes with a local name and children, and other node kinds (comments,
doctypes) whose children are walked unchanged. -/
inductive Node where
  | text (s : List Char) : Node
  | element (nm : List Char) (children : List Node) : Node
  | other (children : List Node) : Node

/-- Rust `char::to_ascii_lowercase`. -/
def asciiLower (c : Char) : Char :=
  if 'A' ≤ c && c ≤ 'Z' then Char.ofNat (c.toNat + 32) else c

/-- Rust `str::eq_ignore_ascii_case`. -/
def eqIgnoreAsciiCase (a b : List Char) : Bool :=
  a.map asciiLower == b.map asciiLower

/-- The block-level element names of src/src/lib.rs:34-75 (matched exactly,
lowercase, by the Rust `matches!`). -/
def blockNames : List (List Char) :=
  ["address".toList, "article".toList, "aside".toList, "blockquote".toList,
   "canvas".toList, "dd".toList, "div".toList, "dl".toList, "dt".toList,
   "fieldset".toList, "figcaption".toList, "figure".toList, "footer".toList,
   "form".toList, "h1".toList, "h2".toList, "h3".toList, "h4".toList,
   "h5".toList, "h6".toList, "header".toList, "hr".toList, "li".toList,
   "main".toList, "nav".toList, "noscript".toList, "ol".toList,
   "output".toList, "p".toList, "pre".toList, "section".toList,
   "table".toList, "tfoot".toList, "ul".toList, "video".toList, "tr".toList,
   "td".toList, "th".toList, "br".toList]

/-- The `is_block` test of `walk` (src/src/lib.rs:34-75). -/
def isBlock (nm : List Char) : Bool := blockNames.contains nm

/-- The `script`/`style` exclusion test of `walk` (src/src/lib.rs:30). -/
def isScriptOrStyle (nm : List Char) : Bool :=
  eqIgnoreAsciiCase nm ("script".toList) || eqIgnoreAsciiCase nm ("style".toList)

mutual

/-- The recursive `walk` of `strip_tags_fast` (src/src/lib.rs:22-90): text
nodes emit their contents; `script`/`style` elements (ASCII
case-insensitively) emit nothing, children included; other elements emit
their children's text, followed by one space when the element is
block-level; remaining node kinds walk their children. -/
def walk : Node → List Char
  | .text s => s
  | .element nm children =>
      if isScriptOrStyle nm then []
      else walkList children ++ (if isBlock nm then [' '] else [])
  | .other children => walkList children

/-- Walk a list of sibling nodes in order, concatenating their text. -/
def walkList : List Node → List Char
  | [] => []
  | n :: ns => walk n ++ walkList ns

end

/-- `strip_tags_fast` (src/src/lib.rs:19-97), applied to the children of the
parsed document: walk the tree, trim, then squeeze whitespace. -/
def strip_tags_fast (dom : List Node) : List Char :=
  squeeze_ws (trimList (walkList dom))

/-- The document html5ever produces for
`"<p>Hello <b>world</b></p><div>more</div>"`: an `html` element wrapping
`head` and `body`, the body holding the `p` (with its trailing-space text
and inline `b`) and the `div`. -/
def dom_hello : List Node :=
  [Node.element ("html".toList)
    [Node.element ("head".toList) [],
     Node.element ("body".toList)
       [Node.element ("p".toList)
         [Node.text ("Hello ".toList),
          Node.element ("b".toList) [Node.text ("world".toList)]],
        Node.element ("div".toList) [Node.text ("more".toList)]]]]

/-- The document html5ever produces for
`"<p>Tom &amp; Jerry</p><script>x=1</script><style>a\x7b\x7d</style>"`:
the entity is decoded by the tokenizer, so the `p` holds the text
`Tom & Jerry`; the script and style elements hold their raw text children. -/
def dom_tom : List Node :=
  [Node.element ("html".toList)
    [Node.element ("head".toList) [],
     Node.element ("body".toList)
       [Node.element ("p".toList) [Node.text ("Tom & Jerry".toList)],
        Node.element ("script".toList) [Node.text ("x=1".toList)],
        Node.element ("style".toList) [Node.text ("a\x7b\x7d".toList)]]]]

/-- Modelled from the spec (§4.1): the document html5ever produces for an
input containing no `<` and no `&` is the mandatory `html` element wrapping
an empty `head` and a `body` whose sole child is a text node holding the
input text (no tags to parse, no entities to decode). -/
def parse_plain_text (t : List Char) : List Node :=
  [Node.element ("html".toList)
    [Node.element ("head".toList) [],
     Node.element ("body".toList) [Node.text t]]]

/-! ## Theorems: HTML text extractor -/

/-- Claim C2: `strip_tags_fast` discards `script`/`style` subtrees entirely
(ASCII case-insensitively, children included), emits exactly one space after
each block-level element, and on the two specification examples returns
`"Hello world more"` and `"Tom & Jerry"`. -/
theorem strip_tags_fast_contract :
    (∀ nm children, isScriptOrStyle nm = true →
      walk (Node.element nm children) = []) ∧
    (∀ nm children, isScriptOrStyle nm = false → isBlock nm = true →
      walk (Node.element nm children) = walkList children ++ [' ']) ∧
    strip_tags_fast dom_hello = "Hello world more".toList ∧
    strip_tags_fast dom_tom = "Tom & Jerry".toList := by
  refine ⟨?_, ?_, by decide, by decide⟩
  · intro nm children h
    simp [walk, h]
  · intro nm children h hb
    simp [walk, h, hb]

theorem strip_tags_fast_contract_witness :
    walk (Node.element ("SCRIPT".toList) [Node.text ("x = 1".toList)]) = [] ∧
    walk (Node.element ("p".toList) [Node.text ("hi".toList)]) =
      walkList [Node.text ("hi".toList)] ++ [' '] ∧
    strip_tags_fast dom_hello = "Hello world more".toList :=
  ⟨strip_tags_fast_contract.1 ("SCRIPT".toList) [Node.text ("x = 1".toList)]
     (by decide),
   strip_tags_fast_contract.2.1 ("p".toList) [Node.text ("hi".toList)]
     (by decide) (by decide),
   strip_tags_fast_contract.2.2.1⟩

/-- Claim C8: on input with no `<` and no `&`, the DOM-based extraction path
returns exactly the whitespace-squeezed, trimmed input. -/
theorem strip_tags_fast_plain_equiv (t : List Char)
    (h1 : '<' ∉ t) (h2 : '&' ∉ t) :
    strip_tags_fast (parse_plain_text t) = squeeze_ws (trimList t) := by
  have hhtml : ¬(isScriptOrStyle ("html".toList) = true) := by decide
  have hhead : ¬(isScriptOrStyle ("head".toList) = true) := by decide
  have hbody : ¬(isScriptOrStyle ("body".toList) = true) := by decide
  have bhtml : ¬(isBlock ("html".toList) = true) := by decide
  have bhead : ¬(isBlock ("head".toList) = true) := by decide
  have bbody : ¬(isBlock ("body".toList) = true) := by decide
  have hw : walkList (parse_plain_text t) = t := by
    simp only [parse_plain_text, walkList, walk]
    rw [if_neg hhtml, if_neg hhead, if_neg hbody, if_neg bhtml, if_neg bhead,
      if_neg bbody]
    simp
  simp [strip_tags_fast, hw]

theorem strip_tags_fast_plain_equiv_witness :
    '<' ∉ ("  Tom   Jerry ".toList) ∧ '&' ∉ ("  Tom   Jerry ".toList) ∧
    strip_tags_fast (parse_plain_text ("  Tom   Jerry ".toList)) =
      squeeze_ws (trimList ("  Tom   Jerry ".toList)) :=
  ⟨by decide, by decide,
   strip_tags_fast_plain_equiv ("  Tom   Jerry ".toList) (by decide)
     (by decide)⟩

/-! ## Resilient summarization client (src/src/ollama.rs:80-113) -/

/-- The observable outcome of one HTTP attempt against the backend:
either the send itself fails (`transport`), or a response arrives with a
status code and a flag saying whether its body decodes as the expected
`ChatResp` schema. -/
inductive HttpResult where
  | transport : HttpResult
  | status (code : Nat) (decodes : Bool) : HttpResult

/-- `reqwest::StatusCode::is_client_error`: 400..=499. -/
def is_client_error (c : Nat) : Bool := decide (400 ≤ c ∧ c ≤ 499)

/-- `reqwest::StatusCode::is_success`: 200..=299. -/
def is_success (c : Nat) : Bool := decide (200 ≤ c ∧ c ≤ 299)

/-- `reqwest::StatusCode::is_server_error`: 500..=599. -/
def is_server_error (c : Nat) : Bool := decide (500 ≤ c ∧ c ≤ 599)

/-- How one attempt ends inside the retry operation. -/
inductive AttemptResult where
  | ok : AttemptResult
  | permanentErr : AttemptResult
  | transientErr : AttemptResult
deriving DecidableEq

/-- The error classification of the `op` closure of `summarize_with_ollama`
(src/src/ollama.rs:80-110): transport failures are transient; a 4xx status
is permanent; any other non-2xx status is transient; a body that fails to
decode as `ChatResp` is transient (src/src/ollama.rs:100-103); otherwise
the attempt succeeds. -/
def classify_response : HttpResult → AttemptResult
  | .transport => .transientErr
  | .status c d =>
    if is_client_error c then .permanentErr
    else if !(is_success c) then .transientErr
    else if !d then .transientErr
    else .ok

/-- The outcome of the whole retried call. -/
inductive CallOutcome where
  | success : CallOutcome
  | failedPermanent : CallOutcome
  | failedTransient : CallOutcome
deriving DecidableEq

/-- The `backoff::future::retry` loop (src/src/ollama.rs:112): the backend
is the sequence of per-attempt results; `fuel` models the remaining
elapsed-time budget (`max_elapsed_time`) as the number of retries it still
allows; the second component of the result is the total number of attempts
made.  A permanent error or a success returns immediately; a transient
error retries while budget remains and otherwise surfaces as a
transient-class failure. -/
def retryLoop (backend : Nat → HttpResult) : Nat → Nat → CallOutcome × Nat
  | 0, i =>
    match classify_response (backend i) with
    | .ok => (.success, i + 1)
    | .permanentErr => (.failedPermanent, i + 1)
    | .transientErr => (.failedTransient, i + 1)
  | f + 1, i =>
    match classify_response (backend i) with
    | .ok => (.success, i + 1)
    | .permanentErr => (.failedPermanent, i + 1)
    | .transientErr => retryLoop backend f (i + 1)

/-- `summarize_with_ollama` (src/src/ollama.rs:35-114), reduced to its
retry/classification skeleton: run the retry loop from attempt 0 with the
given elapsed-time budget. -/
def summarize_with_ollama (backend : Nat → HttpResult) (fuel : Nat) :
    CallOutcome × Nat :=
  retryLoop backend fuel 0

/-! ## Theorems: resilient summarization client -/

theorem classify_server_error (c : Nat) (d : Bool)
    (h : is_server_error c = true) :
    classify_response (.status c d) = .transientErr := by
  simp only [is_server_error, decide_eq_true_eq] at h
  have hc : is_client_error c = false := by
    simp only [is_client_error, decide_eq_false_iff_not]
    omega
  have hs : is_success c = false := by
    simp only [is_success, decide_eq_false_iff_not]
    omega
  simp [classify_response, hc, hs]

theorem retryLoop_all_transient (backend : Nat → HttpResult)
    (h : ∀ i, classify_response (backend i) = .transientErr) :
    ∀ fuel i, retryLoop backend fuel i = (.failedTransient, i + fuel + 1) := by
  intro fuel
  induction fuel with
  | zero => intro i; simp [retryLoop, h i]
  | succ f ih =>
    intro i
    simp only [retryLoop, h i]
    rw [ih (i + 1)]
    congr 1
    omega

/-- Claim C5: a 4xx response on the first attempt makes the call fail
permanently at once, with no retry; a backend that always answers 5xx makes
the call retry until the elapsed-time budget is exhausted and then fail
with a transient-class error — never a success. -/
theorem summarize_retry_classification (backend : Nat → HttpResult)
    (fuel : Nat) :
    (∀ c d, backend 0 = .status c d → is_client_error c = true →
      summarize_with_ollama backend fuel = (.failedPermanent, 1)) ∧
    ((∀ i, ∃ c d, backend i = .status c d ∧ is_server_error c = true) →
      summarize_with_ollama backend fuel = (.failedTransient, fuel + 1)) := by
  constructor
  · intro c d h0 hc
    cases fuel with
    | zero => simp [summarize_with_ollama, retryLoop, h0, classify_response, hc]
    | succ f => simp [summarize_with_ollama, retryLoop, h0, classify_response, hc]
  · intro hall
    have h : ∀ i, classify_response (backend i) = .transientErr := by
      intro i
      rcases hall i with ⟨c, d, hbd, hsv⟩
      rw [hbd]
      exact classify_server_error c d hsv
    have := retryLoop_all_transient backend h fuel 0
    simpa [summarize_with_ollama] using this

theorem summarize_retry_classification_witness :
    summarize_with_ollama (fun _ => .status 404 true) 5 = (.failedPermanent, 1) ∧
    summarize_with_ollama (fun _ => .status 500 true) 2 = (.failedTransient, 3) :=
  ⟨(summarize_retry_classification (fun _ => .status 404 true) 5).1 404 true
     rfl (by decide),
   (summarize_retry_classification (fun _ => .status 500 true) 2).2
     (fun _ => ⟨500, true, rfl, by decide⟩)⟩

/-- Claim C6 counterexample: against a backend that always returns HTTP 200
with a body that fails to decode, the call is retried (three attempts under
a budget of two retries) and ends as a transient-class failure — not an
immediate permanent failure, contradicting the claim that a decode failure
is permanent and unretried. -/
theorem decode_failure_not_permanent :
    summarize_with_ollama (fun _ => .status 200 false) 2 = (.failedTransient, 3) ∧
    summarize_with_ollama (fun _ => .status 200 false) 2 ≠ (.failedPermanent, 1) := by
  constructor
  · decide
  · decide

theorem classify_decode_failure (c : Nat) (h : is_success c = true) :
    classify_response (.status c false) = .transientErr := by
  have hc : is_client_error c = false := by
    simp only [is_success, decide_eq_true_eq] at h
    simp only [is_client_error, decide_eq_false_iff_not]
    omega
  simp [classify_response, hc, h]

/-- Claim C6 (amended): a response received with a success status whose body
fails to decode as the expected schema is classified as a transient failure
and retried; a backend that always responds this way exhausts the
elapsed-time budget and the call ends as a transient-class failure. -/
theorem decode_failure_retried (backend : Nat → HttpResult) (fuel : Nat)
    (h : ∀ i, ∃ c, backend i = .status c false ∧ is_success c = true) :
    summarize_with_ollama backend fuel = (.failedTransient, fuel + 1) := by
  have hc : ∀ i, classify_response (backend i) = .transientErr := by
    intro i
    rcases h i with ⟨c, hbd, hs⟩
    rw [hbd]
    exact classify_decode_failure c hs
  have := retryLoop_all_transient backend hc fuel 0
  simpa [summarize_with_ollama] using this

theorem decode_failure_retried_witness :
    summarize_with_ollama (fun _ => .status 200 false) 1 = (.failedTransient, 2) :=
  decode_failure_retried (fun _ => .status 200 false) 1
    (fun _ => ⟨200, rfl, by decide⟩)

/-! ## Content fingerprint (src/src/lib.rs:198-206)

An executable SHA-256 over byte lists (each element a byte value),
mirroring the `sha2::Sha256` digest used by `prompt_hash`. -/

/-- Addition modulo 2^32. -/
def add32 (a b : Nat) : Nat := (a + b) % 4294967296

/-- Right rotation of a 32-bit word. -/
def rotr32 (n x : Nat) : Nat := ((x >>> n) ||| (x <<< (32 - n))) % 4294967296

/-- Bitwise complement of a 32-bit word. -/
def not32 (x : Nat) : Nat := 4294967295 - x % 4294967296

/-- The SHA-256 choice function. -/
def shaCh (x y z : Nat) : Nat := (x &&& y) ^^^ (not32 x &&& z)

/-- The SHA-256 majority function. -/
def shaMaj (x y z : Nat) : Nat := (x &&& y) ^^^ (x &&& z) ^^^ (y &&& z)

/-- The SHA-256 Σ0 function. -/
def bigSigma0 (x : Nat) : Nat := rotr32 2 x ^^^ rotr32 13 x ^^^ rotr32 22 x

/-- The SHA-256 Σ1 function. -/
def bigSigma1 (x : Nat) : Nat := rotr32 6 x ^^^ rotr32 11 x ^^^ rotr32 25 x

/-- The SHA-256 σ0 function. -/
def smallSigma0 (x : Nat) : Nat := rotr32 7 x ^^^ rotr32 18 x ^^^ (x >>> 3)

/-- The SHA-256 σ1 function. -/
def smallSigma1 (x : Nat) : Nat := rotr32 17 x ^^^ rotr32 19 x ^^^ (x >>> 10)

/-- The 64 SHA-256 round constants, in decimal. -/
def shaK : List Nat := [
  1116352408, 1899447441, 3049323471, 3921009573, 961987163,
  1508970993, 2453635748, 2870763221, 3624381080, 310598401,
  607225278, 1426881987, 1925078388, 2162078206, 2614888103,
  3248222580, 3835390401, 4022224774, 264347078, 604807628,
  770255983, 1249150122, 1555081692, 1996064986, 2554220882,
  2821834349, 2952996808, 3210313671, 3336571891, 3584528711,
  113926993, 338241895, 666307205, 773529912, 1294757372,
  1396182291, 1695183700, 1986661051, 2177026350, 2456956037,
  2730485921, 2820302411, 3259730800, 3345764771, 3516065817,
  3600352804, 4094571909, 275423344, 430227734, 506948616,
  659060556, 883997877, 958139571, 1322822218, 1537002063,
  1747873779, 1955562222, 2024104815, 2227730452, 2361852424,
  2428436474, 2756734187, 3204031479, 3329325298]

/-- The SHA-256 initial hash value, in decimal. -/
def shaH0 : List Nat := [
  1779033703, 3144134277, 1013904242, 2773480762, 1359893119,
  2600822924, 528734635, 1541459225]

/-- SHA-256 padding: append 0x80, zeros to 56 mod 64, and the bit length as
eight big-endian bytes. -/
def sha256_pad (msg : List Nat) : List Nat :=
  let len := msg.length
  let zeros := (64 - ((len + 9) % 64)) % 64
  let bitlen := len * 8
  msg ++ 128 :: List.replicate zeros 0 ++
    [bitlen >>> 56 % 256, bitlen >>> 48 % 256, bitlen >>> 40 % 256,
     bitlen >>> 32 % 256, bitlen >>> 24 % 256, bitlen >>> 16 % 256,
     bitlen >>> 8 % 256, bitlen % 256]

/-- Group bytes into big-endian 32-bit words. -/
def bytesToWords : List Nat → List Nat
  | b0 :: b1 :: b2 :: b3 :: rest =>
      (((b0 * 256 + b1) * 256 + b2) * 256 + b3) :: bytesToWords rest
  | _ => []

/-- The next message-schedule word from the last 16 already computed. -/
def nextWord (w : List Nat) : Nat :=
  let n := w.length
  add32 (add32 (smallSigma1 (w.getD (n - 2) 0)) (w.getD (n - 7) 0))
    (add32 (smallSigma0 (w.getD (n - 15) 0)) (w.getD (n - 16) 0))

/-- Extend the 16-word schedule by the given number of words. -/
def extendSchedule : List Nat → Nat → List Nat
  | w, 0 => w
  | w, k + 1 => extendSchedule (w ++ [nextWord w]) k

/-- One SHA-256 compression round on the eight-word working state. -/
def roundStep (st : List Nat) (kw : Nat × Nat) : List Nat :=
  match st with
  | [a, b, c, d, e, f, g, h] =>
    let t1 := add32 h (add32 (bigSigma1 e) (add32 (shaCh e f g) (add32 kw.1 kw.2)))
    let t2 := add32 (bigSigma0 a) (shaMaj a b c)
    [add32 t1 t2, a, b, c, add32 d t1, e, f, g]
  | _ => st

/-- Compress one 64-byte block into the running hash state. -/
def compress (h : List Nat) (block : List Nat) : List Nat :=
  let w := extendSchedule (bytesToWords block) 48
  let st := (shaK.zip w).foldl roundStep h
  List.zipWith add32 h st

/-- Fold the compression over the given number of 64-byte blocks. -/
def processBlocksF : Nat → List Nat → List Nat → List Nat
  | 0, h, _ => h
  | n + 1, h, bytes => processBlocksF n (compress h (bytes.take 64)) (bytes.drop 64)

/-- The SHA-256 digest of a byte list, as eight 32-bit words. -/
def sha256_words (msg : List Nat) : List Nat :=
  let p := sha256_pad msg
  processBlocksF (p.length / 64) shaH0 p

/-- One lowercase hex digit. -/
def hexChar (n : Nat) : Char :=
  if n < 10 then Char.ofNat (48 + n) else Char.ofNat (87 + n)

/-- Two lowercase hex digits of one byte, zero-padded — the per-byte piece
of Rust's `format!` with the `:x` specifier on the digest. -/
def byteHex (b : Nat) : List Char := [hexChar (b / 16 % 16), hexChar (b % 16)]

/-- The four big-endian bytes of a 32-bit word. -/
def wordBytes (w : Nat) : List Nat :=
  [w >>> 24 % 256, w >>> 16 % 256, w >>> 8 % 256, w % 256]

/-- The lowercase-hex SHA-256 digest of a byte list. -/
def sha256_hex (msg : List Nat) : List Char :=
  ((((sha256_words msg).map wordBytes).flatten).map byteHex).flatten

/-- FIPS 180-4 test vectors: the digests of `"abc"` and of the empty
message, anchoring the embedding to real SHA-256. -/
theorem sha256_test_vectors :
    sha256_hex [97, 98, 99] =
      "ba7816bf8f01cfea414140de5dae2223b00361a396177a9cb410ff61f20015ad".toList ∧
    sha256_hex [] =
      "e3b0c44298fc1c149afbf4c8996fb92427ae41e4649b934ca495991b7852b855".toList := by
  constructor
  · decide
  · decide

/-- Rust `i64::to_be_bytes`: the eight big-endian bytes of the two's
complement representation. -/
def i64_to_be_bytes (t : Int) : List Nat :=
  let u := (t % (18446744073709551616 : Int)).toNat
  [u >>> 56 % 256, u >>> 48 % 256, u >>> 40 % 256, u >>> 32 % 256,
   u >>> 24 % 256, u >>> 16 % 256, u >>> 8 % 256, u % 256]

/-- The `sha2::Sha256` hasher state, modelled as the bytes absorbed so far
(`update` appends; `finalize` hashes the whole absorbed stream). -/
def hasherUpdate (st data : List Nat) : List Nat := st ++ data

/-- A fresh `sha2::Sha256` hasher. -/
def hasherInit : List Nat := []

/-- `finalize` then `format!` with the `:x` specifier. -/
def hasherFinalizeHex (st : List Nat) : List Char := sha256_hex st

/-- `prompt_hash` (src/src/lib.rs:198-206): absorb the model name, a newline
delimiter, the big-endian topic id bytes, another newline, and the prompt,
then emit the lowercase-hex digest.  The model and prompt are the UTF-8
bytes of the Rust strings. -/
def prompt_hash (topic_id : Int) (model prompt : List Nat) : List Char :=
  hasherFinalizeHex
    (hasherUpdate
      (hasherUpdate
        (hasherUpdate (hasherUpdate (hasherUpdate hasherInit model) [10])
          (i64_to_be_bytes topic_id))
        [10])
      prompt)

/-! ## Theorems: content fingerprint -/

theorem roundStep_length (st : List Nat) (kw : Nat × Nat)
    (h : st.length = 8) : (roundStep st kw).length = 8 := by
  match st, h with
  | [a, b, c, d, e, f, g, h8], _ => rfl

theorem foldl_roundStep_length (l : List (Nat × Nat)) :
    ∀ st : List Nat, st.length = 8 → (l.foldl roundStep st).length = 8 := by
  induction l with
  | nil => intro st h; simpa using h
  | cons x xs ih =>
    intro st h
    simp only [List.foldl_cons]
    exact ih (roundStep st x) (roundStep_length st x h)

theorem compress_length (h block : List Nat) (hh : h.length = 8) :
    (compress h block).length = 8 := by
  unfold compress
  rw [List.length_zipWith, foldl_roundStep_length _ h hh, hh]
  rfl

theorem processBlocksF_length (n : Nat) :
    ∀ (h bytes : List Nat), h.length = 8 →
      (processBlocksF n h bytes).length = 8 := by
  induction n with
  | zero => intro h bytes hh; simpa [processBlocksF] using hh
  | succ m ih =>
    intro h bytes hh
    exact ih _ _ (compress_length h (bytes.take 64) hh)

theorem sha256_words_length (msg : List Nat) : (sha256_words msg).length = 8 :=
  processBlocksF_length _ shaH0 _ (by rfl)

theorem flatten_map_const_length {α β : Type} (f : α → List β) (k : Nat)
    (hf : ∀ a, (f a).length = k) :
    ∀ xs : List α, ((xs.map f).flatten).length = xs.length * k := by
  intro xs
  induction xs with
  | nil => simp
  | cons x xs ih =>
    simp only [List.map_cons, List.flatten_cons, List.length_append, ih,
      List.length_cons, hf]
    ring

theorem sha256_hex_length (msg : List Nat) : (sha256_hex msg).length = 64 := by
  unfold sha256_hex
  rw [flatten_map_const_length byteHex 2 (fun b => rfl),
    flatten_map_const_length wordBytes 4 (fun w => rfl),
    sha256_words_length]

/-- Claim C4: `prompt_hash` is deterministic — equal `(topic_id, model,
prompt)` triples give identical hex strings — the digest is the SHA-256 of
the model bytes, a newline delimiter, the eight big-endian topic-id bytes,
another newline, and the prompt bytes, and its hex form always has the
fixed length 64. -/
theorem prompt_hash_deterministic (t1 t2 : Int) (m1 m2 p1 p2 : List Nat) :
    (t1 = t2 → m1 = m2 → p1 = p2 → prompt_hash t1 m1 p1 = prompt_hash t2 m2 p2) ∧
    prompt_hash t1 m1 p1 =
      sha256_hex (m1 ++ [10] ++ i64_to_be_bytes t1 ++ [10] ++ p1) ∧
    (prompt_hash t1 m1 p1).length = 64 := by
  refine ⟨?_, ?_, ?_⟩
  · intro ht hm hp
    rw [ht, hm, hp]
  · simp [prompt_hash, hasherUpdate, hasherInit, hasherFinalizeHex]
  · exact sha256_hex_length _

theorem prompt_hash_deterministic_witness :
    prompt_hash 42 [109] [112] = prompt_hash 42 [109] [112] ∧
    prompt_hash 42 [109] [112] =
      sha256_hex ([109] ++ [10] ++ i64_to_be_bytes 42 ++ [10] ++ [112]) ∧
    (prompt_hash 42 [109] [112]).length = 64 :=
  ⟨(prompt_hash_deterministic 42 42 [109] [109] [112] [112]).1 rfl rfl rfl,
   (prompt_hash_deterministic 42 42 [109] [109] [112] [112]).2.1,
   (prompt_hash_deterministic 42 42 [109] [109] [112] [112]).2.2⟩

/-! ## Output sanitizer (tests/strip_post_tags.rs; function absent from src/) -/

/-- Modelled from the spec: `strip_post_tags` is exercised by
tests/strip_post_tags.rs but its definition is not under src/; the marker
grammar of §4.7 is an opening bracket, the literal `post:` prefix, one or
more digits, an optional trailing annotation (any characters other than the
closing bracket), and the closing bracket.  This matcher returns the input
remainder after one such marker starting at the head, or `none`. -/
def matchMarker (s : List Char) : Option (List Char) :=
  match s with
  | '[' :: 'p' :: 'o' :: 's' :: 't' :: ':' :: rest =>
    if (rest.takeWhile Char.isDigit).isEmpty then none
    else
      match (rest.dropWhile Char.isDigit).dropWhile (fun c => !(c == ']')) with
      | ']' :: tail => some tail
      | _ => none
  | _ => none

/-- Remove every marker occurrence by a left-to-right scan; the fuel is an
upper bound on the scan steps (each step consumes at least one character). -/
def removeMarkersF : Nat → List Char → List Char
  | 0, s => s
  | _ + 1, [] => []
  | fuel + 1, c :: cs =>
    match matchMarker (c :: cs) with
    | some rest => removeMarkersF fuel rest
    | none => c :: removeMarkersF fuel cs

/-- Remove every `[post:<id>...]` marker from one line. -/
def removeMarkers (s : List Char) : List Char := removeMarkersF s.length s

/-- Split on `'\n'` into segments (one more segment than separators). -/
def splitOnNl : List Char → List (List Char)
  | [] => [[]]
  | '\n' :: cs => [] :: splitOnNl cs
  | c :: cs =>
    match splitOnNl cs with
    | p :: ps => (c :: p) :: ps
    | [] => [[c]]

/-- Rust `str::lines`: newline-terminated lines, so a final empty segment
after a trailing newline is not a line. -/
def dropTrailingEmpty (ps : List (List Char)) : List (List Char) :=
  match ps.getLast? with
  | some [] => ps.dropLast
  | _ => ps

/-- Modelled from the spec (§4.7): `strip_post_tags` removes every marker,
then whitespace-squeezes and right-trims each line independently, and
rejoins the lines with single newlines. -/
def strip_post_tags (s : List Char) : List Char :=
  List.intercalate ['\n']
    ((dropTrailingEmpty (splitOnNl s)).map
      (fun l => rtrimList (squeeze_ws (removeMarkers l))))

/-! ## Theorems: output sanitizer -/

/-- Claim C9: on the test input of tests/strip_post_tags.rs, the sanitizer
removes both `[post:...]` markers (one bare, one with a timestamp
annotation) without disturbing surrounding words or leaving doubled
spaces, and drops the trailing newline's empty line. -/
theorem strip_post_tags_removes_markers :
    strip_post_tags
        (("Headline\n- first item [post:123] more\n- second item [post:456 @ 2024-01-01T00:00:00Z]\n").toList) =
      ("Headline\n- first item more\n- second item").toList := by
  decide
